import Mathlib

/-!
# Verification of the Concrete_Route optimizer core

Shallow embedding of the route-optimization pipeline of the repository
(the canonical, time-based / resequence-on-merge variant of
`processOptimization`, together with its helpers `addMinutes`,
`fetchHereMatrix` / `createFallbackMatrix` and `nearestNeighborSort`).

Modelling conventions:
* JavaScript numbers are modelled as `ℚ`; `Number(v.toFixed(2))` is
  modelled as rounding to the nearest multiple of `1/100`
  (`Math.round` and `toFixed` round halves up, as does `round` on `ℚ`).
* `HH:mm` clock strings are modelled as minutes-of-day (`ℕ`, reduced
  mod `1440`); `addMinutes` parses, adds `Math.round(minutes)` and
  re-renders, which is exactly addition of the rounded increment
  modulo `1440`.
* Stop-id strings (built from the row index and either the remaining
  volume or the literal `"final"`) are modelled by the structured type
  `StopId`, which carries exactly the data interpolated into the string;
  the string rendering is injective on that data.
* Network effects (geocoding, the HERE matrix request) are modelled by
  explicit oracles: a `geocode : String → Option GeoCoord` function and
  a `fetched : Option CostMatrix` outcome of the matrix request; the
  haversine helper `calculateDistanceKm` is passed as an abstract
  function `hav` (its trigonometric body is irrelevant to the claims).
* Presentational fields (`color`, the `"Caminhão n"` label) are omitted.
-/

namespace ConcreteRoute

/-- `GeoCoord` from `types.ts`: a latitude/longitude pair. -/
structure GeoCoord where
  lat : ℚ
  lng : ℚ
deriving DecidableEq, Repr

/-- One entry of the cost matrix: travel time (minutes) and distance (km). -/
structure Cost where
  time : ℚ
  dist : ℚ
deriving DecidableEq, Repr

/-- The `CostMatrix` interface: a total lookup from an ordered coordinate
pair to time/distance. -/
def CostMatrix : Type := GeoCoord → GeoCoord → Cost

/-- Structured model of the stop-id strings `s⟨i⟩_⟨v⟩` (full-capacity
stops, tagged with the remaining volume at emission time) and
`s⟨i⟩_final` (the remainder stop of row `i`). -/
inductive StopId where
  | full (row : ℕ) (rem : ℚ)
  | final (row : ℕ)
deriving DecidableEq, Repr

/-- `DeliveryStop` from `types.ts`. -/
structure DeliveryStop where
  id : StopId
  coords : GeoCoord
  volume : ℚ
  endereco : String
  originalIndex : ℕ
deriving DecidableEq, Repr

/-- `Route` from `types.ts` (fields used by the solver). -/
structure Route where
  stops : List DeliveryStop
  totalVolume : ℚ
deriving DecidableEq, Repr

/-- `RawInputRow` from `types.ts`. -/
structure RawInputRow where
  volume : ℚ
  endereco : String
deriving DecidableEq, Repr

/-- `SolverConfig` from `types.ts` (`startTime` as minutes-of-day). -/
structure SolverConfig where
  originAddress : String
  truckCapacity : ℚ
  startTime : ℕ
  loadingTimeMin : ℚ
  unloadingMinPerM3 : ℚ
deriving Repr

/-- `Number(v.toFixed(2))`: round to the nearest multiple of `1/100`. -/
def round2 (v : ℚ) : ℚ := (round (v * 100) : ℚ) / 100

/-- The volume-splitting loop of `processOptimization`:
`while (v > cap) { push full stop; v -= cap }; if (v > 0.01) push final stop`.
The source loop diverges for `cap ≤ 0`; the guard carries `0 < cap` so the
Lean function is total, and it agrees with the source whenever `0 < cap`. -/
def splitStops (i : ℕ) (coords : GeoCoord) (endereco : String) (cap : ℚ)
    (v : ℚ) : List DeliveryStop :=
  if h : cap < v ∧ 0 < cap then
    ⟨.full i v, coords, cap, endereco, i⟩ :: splitStops i coords endereco cap (v - cap)
  else if 1/100 < v then
    [⟨.final i, coords, round2 v, endereco, i⟩]
  else []
termination_by (⌈v / cap⌉).toNat
decreasing_by
  rcases h with ⟨hlt, hpos⟩
  have hdiv : (v - cap) / cap = v / cap - 1 := by
    field_simp
  have hone : (1 : ℚ) < v / cap := (one_lt_div hpos).mpr hlt
  have hceil : ⌈(v - cap) / cap⌉ = ⌈v / cap⌉ - 1 := by
    rw [hdiv]
    exact_mod_cast Int.ceil_sub_int (v / cap) 1
  have h2 : (2 : ℤ) ≤ ⌈v / cap⌉ := by
    have hc : (1 : ℚ) < (⌈v / cap⌉ : ℚ) := lt_of_lt_of_le hone (Int.le_ceil _)
    have hc2 : (1 : ℤ) < ⌈v / cap⌉ := by exact_mod_cast hc
    omega
  rw [hceil]
  omega

/-- The remaining volume when the splitting loop exits
(the value tested against the `0.01` threshold). -/
def splitRem (cap : ℚ) (v : ℚ) : ℚ :=
  if h : cap < v ∧ 0 < cap then splitRem cap (v - cap) else v
termination_by (⌈v / cap⌉).toNat
decreasing_by
  rcases h with ⟨hlt, hpos⟩
  have hdiv : (v - cap) / cap = v / cap - 1 := by
    field_simp
  have hone : (1 : ℚ) < v / cap := (one_lt_div hpos).mpr hlt
  have hceil : ⌈(v - cap) / cap⌉ = ⌈v / cap⌉ - 1 := by
    rw [hdiv]
    exact_mod_cast Int.ceil_sub_int (v / cap) 1
  have h2 : (2 : ℤ) ≤ ⌈v / cap⌉ := by
    have hc : (1 : ℚ) < (⌈v / cap⌉ : ℚ) := lt_of_lt_of_le hone (Int.le_ceil _)
    have hc2 : (1 : ℤ) < ⌈v / cap⌉ := by exact_mod_cast hc
    omega
  rw [hceil]
  omega

/-- Number of full-capacity stops the splitting loop emits. -/
def splitCount (cap : ℚ) (v : ℚ) : ℕ :=
  if h : cap < v ∧ 0 < cap then splitCount cap (v - cap) + 1 else 0
termination_by (⌈v / cap⌉).toNat
decreasing_by
  rcases h with ⟨hlt, hpos⟩
  have hdiv : (v - cap) / cap = v / cap - 1 := by
    field_simp
  have hone : (1 : ℚ) < v / cap := (one_lt_div hpos).mpr hlt
  have hceil : ⌈(v - cap) / cap⌉ = ⌈v / cap⌉ - 1 := by
    rw [hdiv]
    exact_mod_cast Int.ceil_sub_int (v / cap) 1
  have h2 : (2 : ℤ) ≤ ⌈v / cap⌉ := by
    have hc : (1 : ℚ) < (⌈v / cap⌉ : ℚ) := lt_of_lt_of_le hone (Int.le_ceil _)
    have hc2 : (1 : ℤ) < ⌈v / cap⌉ := by exact_mod_cast hc
    omega
  rw [hceil]
  omega

/-- Result of the geocode-and-expand loop: the flat stop list and the
unmapped addresses. -/
structure ExpandResult where
  stops : List DeliveryStop
  unmapped : List String
deriving Repr

/-- The geocode-and-split loop of `processOptimization`: rows whose
address fails to geocode go to `unmapped`; the rest are split against
the capacity. -/
def expandRows (geocode : String → Option GeoCoord) (cap : ℚ) :
    List (ℕ × RawInputRow) → ExpandResult
  | [] => ⟨[], []⟩
  | (i, row) :: rest =>
    let r := expandRows geocode cap rest
    match geocode row.endereco with
    | none => ⟨r.stops, row.endereco :: r.unmapped⟩
    | some coords => ⟨splitStops i coords row.endereco cap row.volume ++ r.stops, r.unmapped⟩

/-- `createFallbackMatrix`: the geometric estimator, parametrized by the
haversine helper `hav` (`calculateDistanceKm`). -/
def createFallbackMatrix (hav : GeoCoord → GeoCoord → ℚ) : CostMatrix :=
  fun a b =>
    let d := hav a b
    ⟨d * (13/10) / 40 * 60, d * (13/10)⟩

/-- One entry of the savings list: the two stop ids and the saving value. -/
structure Saving where
  i : StopId
  j : StopId
  s : ℚ
deriving DecidableEq, Repr

/-- The savings formula of `processOptimization`:
`matrix.get(origin, a).time + matrix.get(origin, b).time - matrix.get(a, b).time`. -/
def savingOf (m : CostMatrix) (origin : GeoCoord) (a b : DeliveryStop) : ℚ :=
  (m origin a.coords).time + (m origin b.coords).time - (m a.coords b.coords).time

/-- The body of the inner savings loop: push `{i: a.id, j: b.id, s}`
exactly when `s > 0`. -/
def savingEntry (m : CostMatrix) (origin : GeoCoord) (a b : DeliveryStop) :
    Option Saving :=
  if 0 < savingOf m origin a b then
    some ⟨a.id, b.id, savingOf m origin a b⟩
  else none

/-- The double loop `for i; for j = i+1 ...` that pushes an entry exactly
when the saving is `> 0`. -/
def savingsRaw (m : CostMatrix) (origin : GeoCoord) : List DeliveryStop → List Saving
  | [] => []
  | a :: rest =>
    rest.filterMap (savingEntry m origin a) ++ savingsRaw m origin rest

/-- `savings.sort((a, b) => b.s - a.s)`: stable sort, descending on `s`. -/
def sortSavings (l : List Saving) : List Saving :=
  l.mergeSort (fun x y => decide (y.s ≤ x.s))

/-- The savings list `processOptimization` iterates over. -/
def computeSavings (m : CostMatrix) (origin : GeoCoord)
    (stops : List DeliveryStop) : List Saving :=
  sortSavings (savingsRaw m origin stops)

/-- The `forEach` scan of `nearestNeighborSort`, carrying `(bestIdx, bestT)`;
the strict `<` comparison keeps the earliest minimum. `k` is the index of
the head of the remaining time list. -/
def scanBest (bi : ℕ) (bt : ℚ) (k : ℕ) : List ℚ → ℕ × ℚ
  | [] => (bi, bt)
  | t :: ts => if t < bt then scanBest k t (k + 1) ts else scanBest bi bt (k + 1) ts

theorem scanBest_fst_lt (bi : ℕ) (bt : ℚ) (k : ℕ) (ts : List ℚ) (h : bi < k) :
    (scanBest bi bt k ts).1 < k + ts.length := by
  induction ts generalizing bi bt k with
  | nil =>
    rw [scanBest]
    simpa using h
  | cons t ts ih =>
    rw [scanBest]
    by_cases hc : t < bt
    · rw [if_pos hc]
      have h2 := ih k t (k + 1) (Nat.lt_succ_self k)
      simp only [List.length_cons]
      omega
    · rw [if_neg hc]
      have h2 := ih bi bt (k + 1) (Nat.lt_succ_of_lt h)
      simp only [List.length_cons]
      omega

/-- The index chosen by one `nearestNeighborSort` iteration on the pool
`p :: ps` seen from `curr` (result of the `forEach` scan). -/
def selIdx (m : CostMatrix) (curr : GeoCoord) (p : DeliveryStop)
    (ps : List DeliveryStop) : ℕ :=
  (scanBest 0 (m curr p.coords).time 1
    (ps.map (fun s => (m curr s.coords).time))).1

/-- The selection index of one `nearestNeighborSort` iteration is a valid
index into the pool. -/
theorem nn_sel_lt (m : CostMatrix) (curr : GeoCoord) (p : DeliveryStop)
    (ps : List DeliveryStop) : selIdx m curr p ps < (p :: ps).length := by
  have h := scanBest_fst_lt 0 (m curr p.coords).time 1
    (ps.map (fun s => (m curr s.coords).time)) Nat.one_pos
  simp only [List.length_map] at h
  simp only [selIdx, List.length_cons]
  omega

/-- The body of `nearestNeighborSort`: select the pool element with the
least travel time from `curr` (earliest index on ties), append it, recurse
on the rest from its coordinate. -/
def nnGo (m : CostMatrix) (pool : List DeliveryStop) (curr : GeoCoord) :
    List DeliveryStop :=
  match pool with
  | [] => []
  | p :: ps =>
    let next := (p :: ps).getD (selIdx m curr p ps) p
    next :: nnGo m ((p :: ps).eraseIdx (selIdx m curr p ps)) next.coords
termination_by pool.length
decreasing_by
  exact List.length_eraseIdx_of_lt (nn_sel_lt m curr _ _) ▸
    Nat.sub_lt (Nat.succ_pos _) Nat.one_pos

/-- `nearestNeighborSort(stops, origin, matrix)`. -/
def nearestNeighborSort (stops : List DeliveryStop) (origin : GeoCoord)
    (m : CostMatrix) : List DeliveryStop :=
  nnGo m stops origin

/-- `r.stops.some(s => s.id === sid)`. -/
def routeContains (sid : StopId) (r : Route) : Bool :=
  r.stops.any (fun s => s.id = sid)

/-- One iteration of the merge loop of `processOptimization`: locate the
routes owning the two stops, and merge (resequencing with
`nearestNeighborSort`) when they are distinct and the combined volume is
within `capacity + 0.01`. -/
def mergeStep (cap : ℚ) (origin : GeoCoord) (m : CostMatrix)
    (routes : List Route) (sv : Saving) : List Route :=
  match routes.findIdx? (routeContains sv.i), routes.findIdx? (routeContains sv.j) with
  | some ri, some rj =>
    if ri = rj then routes
    else
      match routes[ri]?, routes[rj]? with
      | some Ri, some Rj =>
        if Ri.totalVolume + Rj.totalVolume ≤ cap + 1/100 then
          (routes.set ri ⟨nearestNeighborSort (Ri.stops ++ Rj.stops) origin m,
            Ri.totalVolume + Rj.totalVolume⟩).eraseIdx rj
        else routes
      | _, _ => routes
  | _, _ => routes

/-- The full merge loop: a single pass over the sorted savings list. -/
def mergePass (cap : ℚ) (origin : GeoCoord) (m : CostMatrix)
    (routes : List Route) (savings : List Saving) : List Route :=
  savings.foldl (mergeStep cap origin m) routes

/-- One route per stop: the initial Clarke-Wright solution. -/
def initialRoutes (stops : List DeliveryStop) : List Route :=
  stops.map (fun s => ⟨[s], s.volume⟩)

/-- `addMinutes(timeStr, minutes)`: parse `HH:mm`, add `Math.round(minutes)`
on a `Date`, re-render `HH:mm` — addition of the rounded increment on the
minutes-of-day clock, modulo `1440`. -/
def addMinutes (t : ℕ) (x : ℚ) : ℕ :=
  (((t : ℤ) + round x) % 1440).toNat

/-- A `DeliveryStop` with the schedule fields attached
(the `{ ...s, arrivalTime, unloadingDurationMin, departureTime }` spread). -/
structure TimedStop where
  stop : DeliveryStop
  arrivalTime : ℕ
  unloadingDurationMin : ℚ
  departureTime : ℕ
deriving DecidableEq, Repr

/-- State threaded by the scheduling `map` over a route's stops. -/
structure SimState where
  timed : List TimedStop
  endTime : ℕ
  endPos : GeoCoord
  dist : ℚ
deriving Repr

/-- The scheduling pass over a route's stops, threading the mutable
`currTime` / `currPos` / `dist` of the source. -/
def simulate (m : CostMatrix) (rate : ℚ) :
    List DeliveryStop → ℕ → GeoCoord → ℚ → SimState
  | [], t, pos, d => ⟨[], t, pos, d⟩
  | s :: rest, t, pos, d =>
    let travel := m pos s.coords
    let arrival := addMinutes t travel.time
    let duration := s.volume * rate
    let departure := addMinutes arrival duration
    let r := simulate m rate rest departure s.coords (d + travel.dist)
    ⟨⟨s, arrival, duration, departure⟩ :: r.timed, r.endTime, r.endPos, r.dist⟩

/-- A finalized route (presentational `id`/`color` omitted). -/
structure FinalRoute where
  stops : List TimedStop
  totalVolume : ℚ
  totalDistanceKm : ℚ
  startTime : ℕ
  returnToDepotTime : ℕ
deriving Repr

/-- The per-route block of the `Calculate Timestamps for Cycle` map:
clock starts at `startTime + loadingTimeMin`, stops are scheduled in
sequence, and the return leg closes the cycle. -/
def scheduleRoute (cfg : SolverConfig) (origin : GeoCoord) (m : CostMatrix)
    (r : Route) : FinalRoute :=
  let t0 := addMinutes cfg.startTime cfg.loadingTimeMin
  let sim := simulate m cfg.unloadingMinPerM3 r.stops t0 origin 0
  let ret := m sim.endPos origin
  ⟨sim.timed, r.totalVolume, round2 (sim.dist + ret.dist), cfg.startTime,
    addMinutes sim.endTime ret.time⟩

/-- The record returned by `processOptimization`. -/
structure OptResult where
  routes : List FinalRoute
  unmapped : List String
  originCoords : GeoCoord
deriving Repr

/-- `processOptimization`: geocode the origin (fatal on failure), expand
rows, pick the matrix (`fetchHereMatrix(...) || createFallbackMatrix()`,
with `fetched` the modelled outcome of the network request), run the
savings merge pass, and timestamp the surviving routes. -/
def processOptimization (rawData : List RawInputRow) (cfg : SolverConfig)
    (geocode : String → Option GeoCoord) (fetched : Option CostMatrix)
    (hav : GeoCoord → GeoCoord → ℚ) : Except String OptResult :=
  match geocode cfg.originAddress with
  | none => .error "Origem inválida."
  | some origin =>
    let er := expandRows geocode cfg.truckCapacity rawData.enum
    let m := fetched.getD (createFallbackMatrix hav)
    let routes := mergePass cfg.truckCapacity origin m (initialRoutes er.stops)
      (computeSavings m origin er.stops)
    .ok ⟨routes.map (scheduleRoute cfg origin m), er.unmapped, origin⟩

/-! ## Correctness of the nearest-neighbor resequencer -/

theorem scanBest_spec (bi : ℕ) (bt : ℚ) (k : ℕ) (ts : List ℚ) :
    ((scanBest bi bt k ts).2 ≤ bt ∧ ∀ x ∈ ts, (scanBest bi bt k ts).2 ≤ x)
    ∧ (scanBest bi bt k ts = (bi, bt)
      ∨ ∃ j : Fin ts.length, (scanBest bi bt k ts).1 = k + j.1
          ∧ (scanBest bi bt k ts).2 = ts.get j
          ∧ ts.get j < bt
          ∧ ∀ i : Fin ts.length, i.1 < j.1 → ts.get j < ts.get i) := by
  induction ts generalizing bi bt k with
  | nil =>
    rw [scanBest]
    exact ⟨⟨le_refl bt, by simp⟩, Or.inl rfl⟩
  | cons t ts ih =>
    rw [scanBest]
    by_cases hc : t < bt
    · rw [if_pos hc]
      obtain ⟨⟨ha, hb⟩, hcase⟩ := ih k t (k + 1)
      refine ⟨⟨ha.trans hc.le, ?_⟩, Or.inr ?_⟩
      · intro x hx
        rcases List.mem_cons.mp hx with rfl | hx
        · exact ha
        · exact hb x hx
      · rcases hcase with heq | ⟨j, hj1, hj2, hj3, hj4⟩
        · refine ⟨⟨0, by simp⟩, ?_, ?_, ?_, ?_⟩
          · rw [heq]
            simp
          · rw [heq]
            rfl
          · exact hc
          · intro i hi
            exact absurd hi (Nat.not_lt_zero _)
        · refine ⟨⟨j.1 + 1, by simpa using Nat.succ_lt_succ j.2⟩, ?_, ?_, ?_, ?_⟩
          · rw [hj1]
            show k + 1 + j.1 = k + (j.1 + 1)
            omega
          · exact hj2
          · exact hj3.trans hc
          · intro i hilt
            match i with
            | ⟨0, h0⟩ => exact hj3
            | ⟨i + 1, hi⟩ =>
              exact hj4 ⟨i, by simpa using hi⟩ (Nat.lt_of_succ_lt_succ hilt)
    · rw [if_neg hc]
      push_neg at hc
      obtain ⟨⟨ha, hb⟩, hcase⟩ := ih bi bt (k + 1)
      refine ⟨⟨ha, ?_⟩, ?_⟩
      · intro x hx
        rcases List.mem_cons.mp hx with rfl | hx
        · exact ha.trans hc
        · exact hb x hx
      · rcases hcase with heq | ⟨j, hj1, hj2, hj3, hj4⟩
        · exact Or.inl heq
        · refine Or.inr ⟨⟨j.1 + 1, by simpa using Nat.succ_lt_succ j.2⟩, ?_, ?_, ?_, ?_⟩
          · rw [hj1]
            show k + 1 + j.1 = k + (j.1 + 1)
            omega
          · exact hj2
          · exact hj3
          · intro i hilt
            match i with
            | ⟨0, h0⟩ => exact lt_of_lt_of_le hj3 hc
            | ⟨i + 1, hi⟩ =>
              exact hj4 ⟨i, by simpa using hi⟩ (Nat.lt_of_succ_lt_succ hilt)

/-- The travel time from `curr` to a pool element, as scanned by
`nearestNeighborSort`. -/
def travelTime (m : CostMatrix) (curr : GeoCoord) (s : DeliveryStop) : ℚ :=
  (m curr s.coords).time

/-- The element selected by one iteration has minimal travel time from
`curr`, and every earlier pool element has strictly larger travel time
(ties are broken by the first occurrence). -/
theorem selIdx_spec (m : CostMatrix) (curr : GeoCoord) (p : DeliveryStop)
    (ps : List DeliveryStop) (hk : selIdx m curr p ps < (p :: ps).length) :
    (∀ i : Fin (p :: ps).length,
      travelTime m curr ((p :: ps).get ⟨selIdx m curr p ps, hk⟩)
        ≤ travelTime m curr ((p :: ps).get i))
    ∧ ∀ i : Fin (p :: ps).length, i.1 < selIdx m curr p ps →
        travelTime m curr ((p :: ps).get ⟨selIdx m curr p ps, hk⟩)
          < travelTime m curr ((p :: ps).get i) := by
  obtain ⟨⟨ha, hb⟩, hcase⟩ := scanBest_spec 0 (travelTime m curr p) 1
    (ps.map (fun s => (m curr s.coords).time))
  have hsel : selIdx m curr p ps = (scanBest 0 (travelTime m curr p) 1
      (ps.map (fun s => (m curr s.coords).time))).1 := rfl
  rcases hcase with heq | ⟨j, hj1, hj2, hj3, hj4⟩
  · have h0 : selIdx m curr p ps = 0 := by rw [hsel, heq]
    have hv : (scanBest 0 (travelTime m curr p) 1
        (ps.map (fun s => (m curr s.coords).time))).2 = travelTime m curr p := by
      rw [heq]
    constructor
    · intro i
      match i with
      | ⟨0, hi⟩ => simp [h0]
      | ⟨i + 1, hi⟩ =>
        have hi' : i < ps.length := by simpa using hi
        have hmem : travelTime m curr (ps.get ⟨i, hi'⟩)
            ∈ ps.map (fun s => (m curr s.coords).time) := by
          exact List.mem_map.mpr ⟨ps.get ⟨i, hi'⟩, List.get_mem ps i hi', rfl⟩
        have := hb _ hmem
        rw [hv] at this
        simpa [h0] using this
    · intro i hi
      rw [h0] at hi
      exact absurd hi (Nat.not_lt_zero _)
  · have hlen : (ps.map (fun s => (m curr s.coords).time)).length = ps.length :=
      List.length_map _ _
    have hjlt : j.1 < ps.length := hlen ▸ j.2
    have h0 : selIdx m curr p ps = j.1 + 1 := by
      rw [hsel, hj1]
      omega
    have hget : (ps.map (fun s => (m curr s.coords).time)).get j
        = travelTime m curr (ps.get ⟨j.1, hjlt⟩) := by
      simp [List.get_eq_getElem, List.getElem_map, travelTime]
    have hselget : (p :: ps).get ⟨selIdx m curr p ps, hk⟩ = ps.get ⟨j.1, hjlt⟩ := by
      simp [h0, List.get_eq_getElem]
    have hv : travelTime m curr ((p :: ps).get ⟨selIdx m curr p ps, hk⟩)
        = (ps.map (fun s => (m curr s.coords).time)).get j := by
      rw [hselget, hget]
    constructor
    · intro i
      match i with
      | ⟨0, hi⟩ =>
        have : (ps.map (fun s => (m curr s.coords).time)).get j < travelTime m curr p := hj3
        rw [hv]
        exact this.le
      | ⟨i + 1, hi⟩ =>
        have hi' : i < ps.length := by simpa using hi
        have hmem : travelTime m curr (ps.get ⟨i, hi'⟩)
            ∈ ps.map (fun s => (m curr s.coords).time) := by
          exact List.mem_map.mpr ⟨ps.get ⟨i, hi'⟩, List.get_mem ps i hi', rfl⟩
        have := hb _ hmem
        rw [hj2, ← hv] at this
        simpa using this
    · intro i hi
      match i with
      | ⟨0, h0'⟩ =>
        rw [hv]
        exact hj3
      | ⟨i + 1, hi'⟩ =>
        rw [h0] at hi
        have hi2 : i < ps.length := by simpa using hi'
        have := hj4 ⟨i, hlen ▸ hi2⟩ (Nat.lt_of_succ_lt_succ hi)
        rw [← hv] at this
        have hget2 : (ps.map (fun s => (m curr s.coords).time)).get ⟨i, hlen ▸ hi2⟩
            = travelTime m curr (ps.get ⟨i, hi2⟩) := by
          simp [List.get_eq_getElem, List.getElem_map, travelTime]
        rw [hget2] at this
        simpa using this

theorem nnGo_nil (m : CostMatrix) (curr : GeoCoord) : nnGo m [] curr = [] := by
  rw [nnGo]

theorem nnGo_cons (m : CostMatrix) (p : DeliveryStop) (ps : List DeliveryStop)
    (curr : GeoCoord) :
    nnGo m (p :: ps) curr =
      (p :: ps).getD (selIdx m curr p ps) p
        :: nnGo m ((p :: ps).eraseIdx (selIdx m curr p ps))
            ((p :: ps).getD (selIdx m curr p ps) p).coords := by
  rw [nnGo]

/-- `getD` with an in-range index is `get`. -/
theorem getD_eq_get {α : Type} (l : List α) (d : α) (i : ℕ) (h : i < l.length) :
    l.getD i d = l.get ⟨i, h⟩ := by
  simp [List.getD_eq_getElem?_getD, List.getElem?_eq_getElem h]

/-- Moving an indexed element to the front is a permutation. -/
theorem get_cons_eraseIdx_perm {α : Type} [DecidableEq α] (l : List α) (i : ℕ)
    (h : i < l.length) : (l.get ⟨i, h⟩ :: l.eraseIdx i).Perm l := by
  have h1 : l.Perm (l.get ⟨i, h⟩ :: l.erase (l.get ⟨i, h⟩)) :=
    List.perm_cons_erase (List.get_mem l i h)
  have h2 : (l.erase (l.get ⟨i, h⟩)).Perm (l.eraseIdx i) := by
    simpa [List.get_eq_getElem] using List.erase_getElem h
  exact ((h1.trans (h2.cons _))).symm

/-- The nearest-neighbor pass returns a permutation of its input pool. -/
theorem nnGo_perm (m : CostMatrix) (pool : List DeliveryStop) (curr : GeoCoord) :
    (nnGo m pool curr).Perm pool := by
  match pool with
  | [] =>
    rw [nnGo_nil]
  | p :: ps =>
    rw [nnGo_cons]
    have hk := nn_sel_lt m curr p ps
    rw [getD_eq_get (p :: ps) p _ hk]
    have hrec : (nnGo m ((p :: ps).eraseIdx (selIdx m curr p ps))
        ((p :: ps).get ⟨selIdx m curr p ps, hk⟩).coords).Perm
        ((p :: ps).eraseIdx (selIdx m curr p ps)) :=
      nnGo_perm m ((p :: ps).eraseIdx (selIdx m curr p ps)) _
    exact (hrec.cons _).trans (get_cons_eraseIdx_perm (p :: ps) _ hk)
termination_by pool.length
decreasing_by
  exact List.length_eraseIdx_of_lt (nn_sel_lt m curr _ _) ▸
    Nat.sub_lt (Nat.succ_pos _) Nat.one_pos

/-- **C4.** The resequencer returns a permutation of its input (same
multiset of stops, hence of stop ids), of the same length (one appended
stop per iteration, no failure mode), and each iteration appends the
remaining stop with minimum travel time from the current position,
breaking ties by first occurrence in input order. -/
theorem resequencer_spec (m : CostMatrix) (origin curr : GeoCoord)
    (stops pool : List DeliveryStop) (hne : pool ≠ []) :
    (nearestNeighborSort stops origin m).Perm stops
    ∧ (nearestNeighborSort stops origin m).length = stops.length
    ∧ ∃ (k : ℕ) (hk : k < pool.length),
        nnGo m pool curr
          = pool.get ⟨k, hk⟩ :: nnGo m (pool.eraseIdx k) (pool.get ⟨k, hk⟩).coords
        ∧ (∀ i : Fin pool.length,
            travelTime m curr (pool.get ⟨k, hk⟩) ≤ travelTime m curr (pool.get i))
        ∧ (∀ i : Fin pool.length, i.1 < k →
            travelTime m curr (pool.get ⟨k, hk⟩) < travelTime m curr (pool.get i)) := by
  refine ⟨nnGo_perm m stops origin, (nnGo_perm m stops origin).length_eq, ?_⟩
  match pool with
  | [] => exact absurd rfl hne
  | p :: ps =>
    have hk := nn_sel_lt m curr p ps
    obtain ⟨hmin, hfirst⟩ := selIdx_spec m curr p ps hk
    refine ⟨selIdx m curr p ps, hk, ?_, hmin, hfirst⟩
    rw [nnGo_cons, getD_eq_get (p :: ps) p _ hk]

/-- Concrete fixtures for witness instances. -/
def oW : GeoCoord := ⟨0, 0⟩

def sW : DeliveryStop := ⟨.final 0, ⟨0, 0⟩, 1, "A", 0⟩

def mW : CostMatrix := fun _ _ => ⟨1, 1⟩

/-- Witness for `resequencer_spec` at the one-element pool `[sW]`. -/
theorem resequencer_spec_witness :
    ([sW] : List DeliveryStop) ≠ []
    ∧ ((nearestNeighborSort [sW] oW mW).Perm [sW]
      ∧ (nearestNeighborSort [sW] oW mW).length = ([sW] : List DeliveryStop).length
      ∧ ∃ (k : ℕ) (hk : k < ([sW] : List DeliveryStop).length),
          nnGo mW [sW] oW
            = ([sW] : List DeliveryStop).get ⟨k, hk⟩
                :: nnGo mW (([sW] : List DeliveryStop).eraseIdx k)
                  (([sW] : List DeliveryStop).get ⟨k, hk⟩).coords
          ∧ (∀ i : Fin ([sW] : List DeliveryStop).length,
              travelTime mW oW (([sW] : List DeliveryStop).get ⟨k, hk⟩)
                ≤ travelTime mW oW (([sW] : List DeliveryStop).get i))
          ∧ (∀ i : Fin ([sW] : List DeliveryStop).length, i.1 < k →
              travelTime mW oW (([sW] : List DeliveryStop).get ⟨k, hk⟩)
                < travelTime mW oW (([sW] : List DeliveryStop).get i))) :=
  ⟨by simp, resequencer_spec mW oW oW [sW] [sW] (by simp)⟩

/-! ## The savings list (claim C1) -/

theorem savingsRaw_mem (m : CostMatrix) (origin : GeoCoord)
    (stops : List DeliveryStop) (e : Saving) :
    e ∈ savingsRaw m origin stops ↔
      ∃ i j : Fin stops.length, i.1 < j.1
        ∧ 0 < savingOf m origin (stops.get i) (stops.get j)
        ∧ e = ⟨(stops.get i).id, (stops.get j).id,
            savingOf m origin (stops.get i) (stops.get j)⟩ := by
  induction stops with
  | nil =>
    rw [savingsRaw]
    simp only [List.not_mem_nil, false_iff, not_exists]
    intro i
    exact absurd i.2 (by simp)
  | cons a rest ih =>
    rw [savingsRaw, List.mem_append]
    constructor
    · rintro (hf | hr)
      · obtain ⟨b, hb, hfb⟩ := List.mem_filterMap.mp hf
        rw [savingEntry] at hfb
        by_cases hs : 0 < savingOf m origin a b
        · rw [if_pos hs] at hfb
          obtain ⟨n, hn⟩ := List.mem_iff_get.mp hb
          refine ⟨⟨0, by simp⟩, ⟨n.1 + 1, by simpa using Nat.succ_lt_succ n.2⟩,
            Nat.succ_pos _, ?_, ?_⟩
          · show 0 < savingOf m origin a (rest.get ⟨n.1, n.2⟩)
            rw [hn]
            exact hs
          · show e = ⟨a.id, (rest.get ⟨n.1, n.2⟩).id, savingOf m origin a (rest.get ⟨n.1, n.2⟩)⟩
            rw [hn]
            exact (Option.some.inj hfb).symm
        · rw [if_neg hs] at hfb
          exact absurd hfb (by simp)
      · obtain ⟨i, j, hij, hpos, heq⟩ := ih.mp hr
        refine ⟨⟨i.1 + 1, by simpa using Nat.succ_lt_succ i.2⟩,
          ⟨j.1 + 1, by simpa using Nat.succ_lt_succ j.2⟩, Nat.succ_lt_succ hij, ?_, ?_⟩
        · show 0 < savingOf m origin (rest.get ⟨i.1, i.2⟩) (rest.get ⟨j.1, j.2⟩)
          exact hpos
        · show e = ⟨(rest.get ⟨i.1, i.2⟩).id, (rest.get ⟨j.1, j.2⟩).id,
            savingOf m origin (rest.get ⟨i.1, i.2⟩) (rest.get ⟨j.1, j.2⟩)⟩
          exact heq
    · rintro ⟨i, j, hij, hpos, heq⟩
      match i, j with
      | ⟨0, _⟩, ⟨0, _⟩ => exact absurd hij (lt_irrefl 0)
      | ⟨i' + 1, hi⟩, ⟨0, _⟩ => exact absurd hij (Nat.not_lt_zero _)
      | ⟨0, _⟩, ⟨j' + 1, hj⟩ =>
        left
        apply List.mem_filterMap.mpr
        have hj' : j' < rest.length := by simpa using hj
        refine ⟨rest.get ⟨j', hj'⟩, List.get_mem rest j' hj', ?_⟩
        rw [savingEntry]
        have hpos' : 0 < savingOf m origin a (rest.get ⟨j', hj'⟩) := hpos
        rw [if_pos hpos']
        have heq' : e = ⟨a.id, (rest.get ⟨j', hj'⟩).id,
            savingOf m origin a (rest.get ⟨j', hj'⟩)⟩ := heq
        rw [heq']
      | ⟨i' + 1, hi⟩, ⟨j' + 1, hj⟩ =>
        right
        apply ih.mpr
        have hi' : i' < rest.length := by simpa using hi
        have hj' : j' < rest.length := by simpa using hj
        exact ⟨⟨i', hi'⟩, ⟨j', hj'⟩, Nat.lt_of_succ_lt_succ hij, hpos, heq⟩

theorem computeSavings_perm (m : CostMatrix) (origin : GeoCoord)
    (stops : List DeliveryStop) :
    (computeSavings m origin stops).Perm (savingsRaw m origin stops) :=
  List.mergeSort_perm _ _

/-- **C1.** The savings list used by the merge pass contains an entry for
exactly the stop pairs `(i, j)` with `i < j` whose time-based saving
`time(origin,a) + time(origin,b) - time(a,b)` is strictly positive, and
the list is sorted in descending order of the saving. -/
theorem savings_spec (m : CostMatrix) (origin : GeoCoord)
    (stops : List DeliveryStop) :
    (∀ e : Saving, e ∈ computeSavings m origin stops ↔
      ∃ i j : Fin stops.length, i.1 < j.1
        ∧ 0 < savingOf m origin (stops.get i) (stops.get j)
        ∧ e = ⟨(stops.get i).id, (stops.get j).id,
            savingOf m origin (stops.get i) (stops.get j)⟩)
    ∧ (computeSavings m origin stops).Pairwise (fun x y => y.s ≤ x.s)
    ∧ (computeSavings m origin stops).Perm (savingsRaw m origin stops) := by
  refine ⟨?_, ?_, computeSavings_perm m origin stops⟩
  · intro e
    rw [← savingsRaw_mem m origin stops e]
    exact (computeSavings_perm m origin stops).mem_iff
  · have h := @List.sorted_mergeSort Saving
      (fun x y : Saving => decide (y.s ≤ x.s))
      (fun a b c hab hbc => by
        simp only [decide_eq_true_eq] at *
        exact le_trans hbc hab)
      (fun a b => by simpa using le_total b.s a.s)
      (savingsRaw m origin stops)
    exact h.imp (fun hx => by simpa using hx)

/-! ## Merge-pass invariants (claims C2, C3) -/

/-- Sum of the volumes of a list of stops. -/
def volSum (stops : List DeliveryStop) : ℚ :=
  (stops.map DeliveryStop.volume).sum

/-- The route invariant of the specification: the cached `totalVolume`
is the sum of the member volumes and respects `capacity + 0.01`. -/
def RouteInv (cap : ℚ) (r : Route) : Prop :=
  r.totalVolume = volSum r.stops ∧ r.totalVolume ≤ cap + 1/100

theorem nearestNeighborSort_volSum (stops : List DeliveryStop)
    (origin : GeoCoord) (m : CostMatrix) :
    volSum (nearestNeighborSort stops origin m) = volSum stops := by
  exact List.Perm.sum_eq ((nnGo_perm m stops origin).map DeliveryStop.volume)

theorem volSum_append (l₁ l₂ : List DeliveryStop) :
    volSum (l₁ ++ l₂) = volSum l₁ + volSum l₂ := by
  simp [volSum]

theorem mergeStep_inv (cap : ℚ) (origin : GeoCoord) (m : CostMatrix)
    (routes : List Route) (sv : Saving) (h : ∀ r ∈ routes, RouteInv cap r) :
    ∀ r ∈ mergeStep cap origin m routes sv, RouteInv cap r := by
  intro r hr
  unfold mergeStep at hr
  split at hr
  · rename_i ri rj hri hrj
    split at hr
    · exact h r hr
    · rename_i hne
      split at hr
      · rename_i Ri Rj hRi hRj
        split at hr
        · rename_i hvol
          have hr2 := (List.eraseIdx_sublist _ rj).mem hr
          rcases List.mem_or_eq_of_mem_set hr2 with hmem | rfl
          · exact h r hmem
          · constructor
            · show Ri.totalVolume + Rj.totalVolume = volSum _
              rw [nearestNeighborSort_volSum, volSum_append]
              have h1 := (h Ri (List.getElem?_mem hRi)).1
              have h2 := (h Rj (List.getElem?_mem hRj)).1
              rw [← h1, ← h2]
            · exact hvol
        · exact h r hr
      · exact h r hr
  · exact h r hr

theorem mergePass_inv (cap : ℚ) (origin : GeoCoord) (m : CostMatrix) :
    ∀ (savings : List Saving) (routes : List Route),
      (∀ r ∈ routes, RouteInv cap r) →
      ∀ r ∈ mergePass cap origin m routes savings, RouteInv cap r := by
  intro savings
  induction savings with
  | nil =>
    intro routes h
    simpa [mergePass] using h
  | cons sv rest ih =>
    intro routes h
    rw [mergePass, List.foldl_cons]
    exact ih (mergeStep cap origin m routes sv) (mergeStep_inv cap origin m routes sv h)

theorem round2_le (v : ℚ) : round2 v ≤ v + 1/200 := by
  rw [round2]
  have h := abs_sub_round (v * 100)
  rw [abs_sub_le_iff] at h
  obtain ⟨h1, h2⟩ := h
  linarith

theorem abs_round2_sub (v : ℚ) : |round2 v - v| ≤ 1/200 := by
  rw [round2]
  have h := abs_sub_round (v * 100)
  rw [abs_sub_comm] at h
  have heq : (round (v * 100) : ℚ) / 100 - v = ((round (v * 100) : ℚ) - v * 100) / 100 := by
    ring
  rw [heq, abs_div, abs_of_pos (by norm_num : (0:ℚ) < 100)]
  rw [div_le_div_iff (by norm_num) (by norm_num)]
  linarith [h]

/-- Every stop emitted by the splitting loop has volume at most
`capacity + 0.005` (the full stops carry exactly `capacity`, the final
stop the remainder rounded to 2 decimals). -/
theorem splitStops_volume_le (i : ℕ) (c : GeoCoord) (e : String) (cap v : ℚ)
    (hcap : 0 < cap) : ∀ s ∈ splitStops i c e cap v, s.volume ≤ cap + 1/200 := by
  rw [splitStops]
  by_cases h : cap < v ∧ 0 < cap
  · rw [dif_pos h]
    intro s hs
    rcases List.mem_cons.mp hs with rfl | hs2
    · show cap ≤ cap + 1/200
      linarith
    · exact splitStops_volume_le i c e cap (v - cap) hcap s hs2
  · rw [dif_neg h]
    by_cases h2 : 1/100 < v
    · rw [if_pos h2]
      intro s hs
      rw [List.mem_singleton] at hs
      subst hs
      show round2 v ≤ cap + 1/200
      have hv : v ≤ cap := by
        by_contra hcon
        exact h ⟨lt_of_not_ge fun hge => hcon (not_lt.mp (fun hlt => hcon hge.le)), hcap⟩
      calc round2 v ≤ v + 1/200 := round2_le v
        _ ≤ cap + 1/200 := by linarith
    · rw [if_neg h2]
      intro s hs
      exact absurd hs (List.not_mem_nil s)
termination_by (⌈v / cap⌉).toNat
decreasing_by
  rcases h with ⟨hlt, hpos⟩
  have hdiv : (v - cap) / cap = v / cap - 1 := by
    field_simp
  have hone : (1 : ℚ) < v / cap := (one_lt_div hpos).mpr hlt
  have hceil : ⌈(v - cap) / cap⌉ = ⌈v / cap⌉ - 1 := by
    rw [hdiv]
    exact_mod_cast Int.ceil_sub_int (v / cap) 1
  have h2 : (2 : ℤ) ≤ ⌈v / cap⌉ := by
    have hc : (1 : ℚ) < (⌈v / cap⌉ : ℚ) := lt_of_lt_of_le hone (Int.le_ceil _)
    have hc2 : (1 : ℤ) < ⌈v / cap⌉ := by exact_mod_cast hc
    omega
  rw [hceil]
  omega

theorem expandRows_volume_le (geocode : String → Option GeoCoord) (cap : ℚ)
    (hcap : 0 < cap) (rows : List (ℕ × RawInputRow)) :
    ∀ s ∈ (expandRows geocode cap rows).stops, s.volume ≤ cap + 1/200 := by
  induction rows with
  | nil =>
    intro s hs
    exact absurd hs (List.not_mem_nil s)
  | cons hd rest ih =>
    obtain ⟨i, row⟩ := hd
    intro s hs
    rw [expandRows] at hs
    cases hg : geocode row.endereco with
    | none =>
      rw [hg] at hs
      exact ih s hs
    | some coords =>
      rw [hg] at hs
      rcases List.mem_append.mp hs with hs1 | hs2
      · exact splitStops_volume_le i coords row.endereco cap row.volume hcap s hs1
      · exact ih s hs2

theorem initialRoutes_inv (cap : ℚ) (stops : List DeliveryStop)
    (h : ∀ s ∈ stops, s.volume ≤ cap + 1/200) :
    ∀ r ∈ initialRoutes stops, RouteInv cap r := by
  intro r hr
  obtain ⟨s, hs, rfl⟩ := List.mem_map.mp hr
  constructor
  · simp [volSum]
  · show s.volume ≤ cap + 1/100
    have := h s hs
    linarith

/-- **C2.** Starting from the expanded stops of any input, every route in
the active set, after any prefix of the savings list has been processed
(`l` ranges over arbitrary saving lists, in particular every prefix of
the sorted savings list), keeps `totalVolume` equal to the sum of its
member volumes and within `capacity + 0.01`. -/
theorem merge_volume_invariant (rawData : List RawInputRow)
    (cfg : SolverConfig) (geocode : String → Option GeoCoord) (m : CostMatrix)
    (origin : GeoCoord) (hcap : 0 < cfg.truckCapacity) (l : List Saving) :
    ∀ r ∈ mergePass cfg.truckCapacity origin m
        (initialRoutes (expandRows geocode cfg.truckCapacity rawData.enum).stops) l,
      r.totalVolume = volSum r.stops
        ∧ r.totalVolume ≤ cfg.truckCapacity + 1/100 := by
  intro r hr
  exact mergePass_inv cfg.truckCapacity origin m l _
    (initialRoutes_inv cfg.truckCapacity _
      (expandRows_volume_le geocode cfg.truckCapacity hcap rawData.enum)) r hr

/-- Witness for `merge_volume_invariant`: a concrete run with capacity 9
and a single row of volume 20. -/
theorem merge_volume_invariant_witness :
    (0 : ℚ) < 9
    ∧ ∀ r ∈ mergePass (9 : ℚ) oW mW
        (initialRoutes (expandRows (fun _ => some oW) 9
          ([⟨20, "A"⟩] : List RawInputRow).enum).stops) [],
        r.totalVolume = volSum r.stops ∧ r.totalVolume ≤ (9 : ℚ) + 1/100 :=
  ⟨by norm_num,
    merge_volume_invariant [⟨20, "A"⟩]
      ⟨"O", 9, 0, 0, 0⟩ (fun _ => some oW) mW oW (by norm_num) []⟩

/-- **C3.** A successful merge (both stops found, in distinct routes,
combined volume within tolerance) removes exactly one route from the
active set; the surviving route carries exactly the union of the two
input routes' stop ids; and every other route keeps its place (shifted
down by one past the removed index) unchanged. -/
theorem mergeStep_merge (cap : ℚ) (origin : GeoCoord) (m : CostMatrix)
    (routes : List Route) (sv : Saving) (ri rj : ℕ) (Ri Rj : Route)
    (hri : routes.findIdx? (routeContains sv.i) = some ri)
    (hrj : routes.findIdx? (routeContains sv.j) = some rj)
    (hne : ri ≠ rj)
    (hRi : routes[ri]? = some Ri)
    (hRj : routes[rj]? = some Rj)
    (hvol : Ri.totalVolume + Rj.totalVolume ≤ cap + 1/100) :
    (mergeStep cap origin m routes sv).length + 1 = routes.length
    ∧ (∃ merged ∈ mergeStep cap origin m routes sv,
        merged.totalVolume = Ri.totalVolume + Rj.totalVolume
        ∧ (↑(merged.stops.map DeliveryStop.id) : Multiset StopId)
            = ↑(Ri.stops.map DeliveryStop.id) + ↑(Rj.stops.map DeliveryStop.id))
    ∧ ∀ k, k < routes.length → k ≠ ri → k ≠ rj →
        (mergeStep cap origin m routes sv)[if k < rj then k else k - 1]?
          = routes[k]? := by
  have hstep : mergeStep cap origin m routes sv
      = (routes.set ri ⟨nearestNeighborSort (Ri.stops ++ Rj.stops) origin m,
          Ri.totalVolume + Rj.totalVolume⟩).eraseIdx rj := by
    simp only [mergeStep, hri, hrj, hRi, hRj, if_neg hne, if_pos hvol]
  have hrj_lt : rj < routes.length := (List.getElem?_eq_some_iff.mp hRj).1
  have hri_lt : ri < routes.length := (List.getElem?_eq_some_iff.mp hRi).1
  refine ⟨?_, ?_, ?_⟩
  · rw [hstep, List.length_eraseIdx_of_lt (by simpa using hrj_lt), List.length_set]
    omega
  · have hat : (mergeStep cap origin m routes sv)[if ri < rj then ri else ri - 1]?
        = some ⟨nearestNeighborSort (Ri.stops ++ Rj.stops) origin m,
            Ri.totalVolume + Rj.totalVolume⟩ := by
      rw [hstep]
      by_cases hc : ri < rj
      · rw [if_pos hc, List.getElem?_eraseIdx_of_lt _ _ _ hc,
          List.getElem?_set_self (by simpa using hri_lt)]
      · have hgt : rj < ri := lt_of_le_of_ne (not_lt.mp hc) hne.symm
        rw [if_neg hc, List.getElem?_eraseIdx_of_ge _ _ _ (by omega : rj ≤ ri - 1)]
        have hadd : ri - 1 + 1 = ri := by omega
        rw [hadd, List.getElem?_set_self (by simpa using hri_lt)]
    refine ⟨_, List.getElem?_mem hat, rfl, ?_⟩
    have hperm : (nearestNeighborSort (Ri.stops ++ Rj.stops) origin m).Perm
        (Ri.stops ++ Rj.stops) := nnGo_perm m _ origin
    calc (↑((nearestNeighborSort (Ri.stops ++ Rj.stops) origin m).map DeliveryStop.id)
          : Multiset StopId)
        = ↑((Ri.stops ++ Rj.stops).map DeliveryStop.id) :=
          Multiset.coe_eq_coe.mpr (hperm.map _)
      _ = ↑(Ri.stops.map DeliveryStop.id ++ Rj.stops.map DeliveryStop.id) := by
          rw [List.map_append]
      _ = ↑(Ri.stops.map DeliveryStop.id) + ↑(Rj.stops.map DeliveryStop.id) := by
          rw [← Multiset.coe_add]
  · intro k hk hkri hkrj
    rw [hstep]
    by_cases hc : k < rj
    · rw [if_pos hc, List.getElem?_eraseIdx_of_lt _ _ _ hc,
        List.getElem?_set_ne (Ne.symm hkri)]
    · have hgt : rj < k := lt_of_le_of_ne (not_lt.mp hc) (Ne.symm hkrj)
      rw [if_neg hc, List.getElem?_eraseIdx_of_ge _ _ _ (by omega : rj ≤ k - 1)]
      have hadd : k - 1 + 1 = k := by omega
      rw [hadd, List.getElem?_set_ne (Ne.symm hkri)]

/-- A second concrete stop, route fixtures and a saving entry for
witness instances. -/
def s2W : DeliveryStop := ⟨.final 1, ⟨1, 1⟩, 1, "B", 1⟩

def r1W : Route := ⟨[sW], 1⟩

def r2W : Route := ⟨[s2W], 1⟩

def svW : Saving := ⟨sW.id, s2W.id, 1⟩

/-- Witness for `mergeStep_merge`: merging the two singleton routes
`[r1W, r2W]` under capacity 9. -/
theorem mergeStep_merge_witness :
    (([r1W, r2W] : List Route).findIdx? (routeContains svW.i) = some 0
      ∧ ([r1W, r2W] : List Route).findIdx? (routeContains svW.j) = some 1
      ∧ ([r1W, r2W] : List Route)[0]? = some r1W
      ∧ ([r1W, r2W] : List Route)[1]? = some r2W
      ∧ r1W.totalVolume + r2W.totalVolume ≤ (9 : ℚ) + 1/100)
    ∧ ((mergeStep 9 oW mW [r1W, r2W] svW).length + 1
        = ([r1W, r2W] : List Route).length
      ∧ (∃ merged ∈ mergeStep 9 oW mW [r1W, r2W] svW,
          merged.totalVolume = r1W.totalVolume + r2W.totalVolume
          ∧ (↑(merged.stops.map DeliveryStop.id) : Multiset StopId)
              = ↑(r1W.stops.map DeliveryStop.id) + ↑(r2W.stops.map DeliveryStop.id))
      ∧ ∀ k, k < ([r1W, r2W] : List Route).length → k ≠ 0 → k ≠ 1 →
          (mergeStep 9 oW mW [r1W, r2W] svW)[if k < 1 then k else k - 1]?
            = ([r1W, r2W] : List Route)[k]?) :=
  ⟨⟨by decide, by decide, by decide, by norm_num [r1W, r2W], by norm_num [r1W, r2W]⟩,
    mergeStep_merge 9 oW mW [r1W, r2W] svW 0 1 r1W r2W
      (by decide) (by decide) (by decide)
      (by norm_num [r1W, r2W]) (by norm_num [r1W, r2W]) (by norm_num [r1W, r2W])⟩

/-! ## Demand expansion (claims C5, C10) -/

theorem splitRem_le (cap v : ℚ) (hcap : 0 < cap) : splitRem cap v ≤ cap := by
  rw [splitRem]
  by_cases h : cap < v ∧ 0 < cap
  · rw [dif_pos h]
    exact splitRem_le cap (v - cap) hcap
  · rw [dif_neg h]
    rcases not_and_or.mp h with h1 | h2
    · exact le_of_not_lt h1
    · exact absurd hcap h2
termination_by (⌈v / cap⌉).toNat
decreasing_by
  rcases h with ⟨hlt, hpos⟩
  have hdiv : (v - cap) / cap = v / cap - 1 := by
    field_simp
  have hone : (1 : ℚ) < v / cap := (one_lt_div hpos).mpr hlt
  have hceil : ⌈(v - cap) / cap⌉ = ⌈v / cap⌉ - 1 := by
    rw [hdiv]
    exact_mod_cast Int.ceil_sub_int (v / cap) 1
  have h2 : (2 : ℤ) ≤ ⌈v / cap⌉ := by
    have hc : (1 : ℚ) < (⌈v / cap⌉ : ℚ) := lt_of_lt_of_le hone (Int.le_ceil _)
    have hc2 : (1 : ℤ) < ⌈v / cap⌉ := by exact_mod_cast hc
    omega
  rw [hceil]
  omega

theorem splitRem_add (cap v : ℚ) : (splitCount cap v : ℚ) * cap + splitRem cap v = v := by
  rw [splitCount, splitRem]
  by_cases h : cap < v ∧ 0 < cap
  · rw [dif_pos h, dif_pos h]
    have ih := splitRem_add cap (v - cap)
    push_cast
    linarith
  · rw [dif_neg h, dif_neg h]
    push_cast
    ring
termination_by (⌈v / cap⌉).toNat
decreasing_by
  rcases h with ⟨hlt, hpos⟩
  have hdiv : (v - cap) / cap = v / cap - 1 := by
    field_simp
  have hone : (1 : ℚ) < v / cap := (one_lt_div hpos).mpr hlt
  have hceil : ⌈(v - cap) / cap⌉ = ⌈v / cap⌉ - 1 := by
    rw [hdiv]
    exact_mod_cast Int.ceil_sub_int (v / cap) 1
  have h2 : (2 : ℤ) ≤ ⌈v / cap⌉ := by
    have hc : (1 : ℚ) < (⌈v / cap⌉ : ℚ) := lt_of_lt_of_le hone (Int.le_ceil _)
    have hc2 : (1 : ℤ) < ⌈v / cap⌉ := by exact_mod_cast hc
    omega
  rw [hceil]
  omega

theorem splitStops_volumes (i : ℕ) (c : GeoCoord) (e : String) (cap v : ℚ) :
    (splitStops i c e cap v).map DeliveryStop.volume
      = List.replicate (splitCount cap v) cap
        ++ (if 1/100 < splitRem cap v then [round2 (splitRem cap v)] else []) := by
  rw [splitStops, splitCount, splitRem]
  by_cases h : cap < v ∧ 0 < cap
  · rw [dif_pos h, dif_pos h, dif_pos h]
    rw [List.map_cons, splitStops_volumes i c e cap (v - cap)]
    rw [List.replicate_succ, List.cons_append]
  · rw [dif_neg h, dif_neg h, dif_neg h]
    by_cases h2 : 1/100 < v
    · rw [if_pos h2, if_pos h2]
      simp
    · rw [if_neg h2, if_neg h2]
      simp
termination_by (⌈v / cap⌉).toNat
decreasing_by
  rcases h with ⟨hlt, hpos⟩
  have hdiv : (v - cap) / cap = v / cap - 1 := by
    field_simp
  have hone : (1 : ℚ) < v / cap := (one_lt_div hpos).mpr hlt
  have hceil : ⌈(v - cap) / cap⌉ = ⌈v / cap⌉ - 1 := by
    rw [hdiv]
    exact_mod_cast Int.ceil_sub_int (v / cap) 1
  have h2 : (2 : ℤ) ≤ ⌈v / cap⌉ := by
    have hc : (1 : ℚ) < (⌈v / cap⌉ : ℚ) := lt_of_lt_of_le hone (Int.le_ceil _)
    have hc2 : (1 : ℤ) < ⌈v / cap⌉ := by exact_mod_cast hc
    omega
  rw [hceil]
  omega

/-- Counterexample to C5 as stated: with capacity 9 and row volume 9.005
the remaining volume 0.005 exceeds 0.001, yet the code emits no final
stop (its threshold is 0.01, not 0.001): only the one full stop appears. -/
theorem split_remainder_counterexample :
    splitRem 9 (1801/200) = 1/200
    ∧ (1/1000 : ℚ) < 1/200
    ∧ (splitStops 0 ⟨0, 0⟩ "X" 9 (1801/200)).map DeliveryStop.volume = [9] := by
  refine ⟨?_, by norm_num, ?_⟩
  · rw [splitRem, splitRem]
    norm_num
  · rw [splitStops, splitStops]
    norm_num

/-- **C5 (amended).** The splitter emits full-capacity stops while the
remaining volume exceeds the capacity, then one final stop carrying the
(rounded) remainder exactly when the remainder exceeds ε = 0.01; the
remainder is what is left after removing the full loads and never
exceeds the capacity. -/
theorem expansion_split_spec (i : ℕ) (c : GeoCoord) (e : String) (cap v : ℚ)
    (hcap : 0 < cap) :
    (splitStops i c e cap v).map DeliveryStop.volume
      = List.replicate (splitCount cap v) cap
        ++ (if 1/100 < splitRem cap v then [round2 (splitRem cap v)] else [])
    ∧ (splitCount cap v : ℚ) * cap + splitRem cap v = v
    ∧ splitRem cap v ≤ cap :=
  ⟨splitStops_volumes i c e cap v, splitRem_add cap v, splitRem_le cap v hcap⟩

/-- Witness for `expansion_split_spec`: the scenario capacity 9, one row
of volume 20 expands to exactly the volumes `[9, 9, 2]`. -/
theorem expansion_split_witness :
    (0 : ℚ) < 9
    ∧ (splitStops 0 ⟨0, 0⟩ "X" 9 20).map DeliveryStop.volume = [9, 9, 2] := by
  have h := (expansion_split_spec 0 ⟨0, 0⟩ "X" 9 20 (by norm_num)).1
  refine ⟨by norm_num, ?_⟩
  rw [h]
  rw [splitCount, splitCount, splitCount, splitRem, splitRem, splitRem]
  norm_num [round2, round_eq, List.replicate_succ]

/-- **C10.** When the remainder exceeds the threshold, the emitted
volumes are `capacity, …, capacity, round2(remainder)` — the final stop
carries the remainder rounded to 2 decimal places, not the exact
remainder — and the total emitted volume differs from the row volume by
at most `0.005`. -/
theorem remainder_rounding (i : ℕ) (c : GeoCoord) (e : String) (cap v : ℚ)
    (hcap : 0 < cap) (hrem : 1/100 < splitRem cap v) :
    (splitStops i c e cap v).map DeliveryStop.volume
      = List.replicate (splitCount cap v) cap ++ [round2 (splitRem cap v)]
    ∧ |((splitStops i c e cap v).map DeliveryStop.volume).sum - v| ≤ 1/200 := by
  have h1 := splitStops_volumes i c e cap v
  rw [if_pos hrem] at h1
  refine ⟨h1, ?_⟩
  rw [h1, List.sum_append, List.sum_replicate, List.sum_singleton, nsmul_eq_mul]
  have h2 := splitRem_add cap v
  have h3 := abs_round2_sub (splitRem cap v)
  have h4 : (splitCount cap v : ℚ) * cap + round2 (splitRem cap v) - v
      = round2 (splitRem cap v) - splitRem cap v := by linarith
  rw [h4]
  exact h3

/-- Witness for `remainder_rounding` at capacity 9 and volume 9.05. -/
theorem remainder_rounding_witness :
    ((0 : ℚ) < 9 ∧ 1/100 < splitRem 9 (181/20))
    ∧ ((splitStops 0 ⟨0, 0⟩ "X" 9 (181/20)).map DeliveryStop.volume
        = List.replicate (splitCount 9 (181/20)) 9 ++ [round2 (splitRem 9 (181/20))]
      ∧ |((splitStops 0 ⟨0, 0⟩ "X" 9 (181/20)).map DeliveryStop.volume).sum
          - 181/20| ≤ 1/200) :=
  ⟨⟨by norm_num, by rw [splitRem, splitRem]; norm_num⟩,
    remainder_rounding 0 ⟨0, 0⟩ "X" 9 (181/20) (by norm_num)
      (by rw [splitRem, splitRem]; norm_num)⟩

/-! ## Whole-run behaviour (claims C8, C9) -/

theorem mergeStep_nil (cap : ℚ) (origin : GeoCoord) (m : CostMatrix)
    (sv : Saving) : mergeStep cap origin m [] sv = [] := rfl

theorem mergePass_nil (cap : ℚ) (origin : GeoCoord) (m : CostMatrix) :
    ∀ l : List Saving, mergePass cap origin m [] l = [] := by
  intro l
  induction l with
  | nil => rfl
  | cons sv rest ih =>
    rw [mergePass, List.foldl_cons, mergeStep_nil]
    exact ih

theorem mergeStep_ne_nil (cap : ℚ) (origin : GeoCoord) (m : CostMatrix)
    (routes : List Route) (sv : Saving) (h : routes ≠ []) :
    mergeStep cap origin m routes sv ≠ [] := by
  unfold mergeStep
  split
  · rename_i ri rj hri hrj
    split
    · exact h
    · rename_i hne
      split
      · rename_i Ri Rj hRi hRj
        split
        · rename_i hvol
          have hrj_lt : rj < routes.length := (List.getElem?_eq_some_iff.mp hRj).1
          have hri_lt : ri < routes.length := (List.getElem?_eq_some_iff.mp hRi).1
          intro hcon
          have hlen : ((routes.set ri ⟨nearestNeighborSort (Ri.stops ++ Rj.stops) origin m,
              Ri.totalVolume + Rj.totalVolume⟩).eraseIdx rj).length = routes.length - 1 := by
            rw [List.length_eraseIdx_of_lt (by simpa using hrj_lt), List.length_set]
          rw [hcon] at hlen
          simp only [List.length_nil] at hlen
          omega
        · exact h
      · exact h
  · exact h

theorem mergePass_ne_nil (cap : ℚ) (origin : GeoCoord) (m : CostMatrix) :
    ∀ (l : List Saving) (routes : List Route), routes ≠ [] →
      mergePass cap origin m routes l ≠ [] := by
  intro l
  induction l with
  | nil =>
    intro routes h
    simpa [mergePass] using h
  | cons sv rest ih =>
    intro routes h
    rw [mergePass, List.foldl_cons]
    exact ih (mergeStep cap origin m routes sv)
      (mergeStep_ne_nil cap origin m routes sv h)

/-- Geocode oracle for concrete runs: resolves the origin `"O"` and the
customer address `"A"`, fails on everything else. -/
def geoW : String → Option GeoCoord :=
  fun s => if s = "O" then some oW else if s = "A" then some ⟨1, 1⟩ else none

/-- Concrete solver configuration for witness runs. -/
def cfgW : SolverConfig := ⟨"O", 9, 480, 30, 2⟩

/-- Counterexample to C8 as stated: with zero input rows (so zero stops)
the run does **not** fail — it completes successfully with an empty
route set. -/
theorem no_valid_stops_counterexample :
    processOptimization [] cfgW geoW none (fun _ _ => 0)
      = .ok ⟨[], [], oW⟩ := by
  have h1 : expandRows geoW cfgW.truckCapacity ([] : List RawInputRow).enum
      = ⟨[], []⟩ := rfl
  simp only [processOptimization, show geoW cfgW.originAddress = some oW from rfl,
    h1, initialRoutes, List.map_nil, mergePass_nil]

/-- **C8 (amended).** If zero stops were produced (all rows unresolvable
or empty input), the run completes successfully, returning an empty
route set together with the unmapped addresses — there is no
`NoValidStops` failure in the code. -/
theorem empty_stops_success (rawData : List RawInputRow) (cfg : SolverConfig)
    (geocode : String → Option GeoCoord) (fetched : Option CostMatrix)
    (hav : GeoCoord → GeoCoord → ℚ) (o : GeoCoord)
    (ho : geocode cfg.originAddress = some o)
    (hempty : (expandRows geocode cfg.truckCapacity rawData.enum).stops = []) :
    processOptimization rawData cfg geocode fetched hav
      = .ok ⟨[], (expandRows geocode cfg.truckCapacity rawData.enum).unmapped, o⟩ := by
  simp only [processOptimization, ho, hempty, initialRoutes, List.map_nil, mergePass_nil]

/-- Witness for `empty_stops_success`: one row whose address cannot be
geocoded. -/
theorem empty_stops_success_witness :
    (geoW cfgW.originAddress = some oW
      ∧ (expandRows geoW cfgW.truckCapacity
          ([⟨5, "Z"⟩] : List RawInputRow).enum).stops = [])
    ∧ processOptimization [⟨5, "Z"⟩] cfgW geoW none (fun _ _ => 0)
        = .ok ⟨[], (expandRows geoW cfgW.truckCapacity
            ([⟨5, "Z"⟩] : List RawInputRow).enum).unmapped, oW⟩ :=
  ⟨⟨rfl, rfl⟩,
    empty_stops_success [⟨5, "Z"⟩] cfgW geoW none (fun _ _ => 0) oW rfl rfl⟩

/-- **C9.** When the matrix request fails (`fetched = none`), the run
uses the geometric estimator — `distanceKm = haversine * 1.3`,
`timeMinutes = distanceKm / 40 * 60` — surfaces no error, and, given at
least one valid stop, returns a non-empty route set. -/
theorem matrix_fallback_spec (rawData : List RawInputRow) (cfg : SolverConfig)
    (geocode : String → Option GeoCoord) (hav : GeoCoord → GeoCoord → ℚ)
    (o : GeoCoord) (ho : geocode cfg.originAddress = some o)
    (hstops : (expandRows geocode cfg.truckCapacity rawData.enum).stops ≠ []) :
    ((none : Option CostMatrix).getD (createFallbackMatrix hav)
        = createFallbackMatrix hav
      ∧ ∀ a b, (createFallbackMatrix hav a b).dist = hav a b * (13/10)
        ∧ (createFallbackMatrix hav a b).time
            = (createFallbackMatrix hav a b).dist / 40 * 60)
    ∧ ∃ res : OptResult,
        processOptimization rawData cfg geocode none hav = .ok res
        ∧ res.routes ≠ [] := by
  refine ⟨⟨rfl, fun a b => ⟨rfl, rfl⟩⟩, ?_⟩
  have h1 : initialRoutes (expandRows geocode cfg.truckCapacity rawData.enum).stops
      ≠ [] := by
    intro hcon
    exact hstops (List.map_eq_nil_iff.mp hcon)
  have h2 := mergePass_ne_nil cfg.truckCapacity o
    ((none : Option CostMatrix).getD (createFallbackMatrix hav))
    (computeSavings ((none : Option CostMatrix).getD (createFallbackMatrix hav)) o
      (expandRows geocode cfg.truckCapacity rawData.enum).stops)
    (initialRoutes (expandRows geocode cfg.truckCapacity rawData.enum).stops) h1
  simp only [processOptimization, ho]
  refine ⟨_, rfl, ?_⟩
  intro hcon
  exact h2 (List.map_eq_nil_iff.mp hcon)

/-- Witness for `matrix_fallback_spec`: one resolvable row of volume 5,
matrix request failed. -/
theorem matrix_fallback_witness :
    (geoW cfgW.originAddress = some oW
      ∧ (expandRows geoW cfgW.truckCapacity
          ([⟨5, "A"⟩] : List RawInputRow).enum).stops ≠ [])
    ∧ (((none : Option CostMatrix).getD (createFallbackMatrix (fun _ _ => 0))
          = createFallbackMatrix (fun _ _ => 0)
        ∧ ∀ a b, (createFallbackMatrix (fun _ _ => (0:ℚ)) a b).dist
              = (fun _ _ => (0:ℚ)) a b * (13/10)
          ∧ (createFallbackMatrix (fun _ _ => (0:ℚ)) a b).time
              = (createFallbackMatrix (fun _ _ => (0:ℚ)) a b).dist / 40 * 60)
      ∧ ∃ res : OptResult,
          processOptimization [⟨5, "A"⟩] cfgW geoW none (fun _ _ => 0) = .ok res
          ∧ res.routes ≠ []) := by
  have hsplit : splitStops 0 ⟨1, 1⟩ "A" cfgW.truckCapacity 5
      = [⟨.final 0, ⟨1, 1⟩, round2 5, "A", 0⟩] := by
    rw [splitStops]
    norm_num [cfgW]
  have hexp : (expandRows geoW cfgW.truckCapacity
      ([⟨5, "A"⟩] : List RawInputRow).enum).stops
      = [⟨.final 0, ⟨1, 1⟩, round2 5, "A", 0⟩] := by
    show (expandRows geoW cfgW.truckCapacity [(0, ⟨5, "A"⟩)]).stops = _
    rw [expandRows, expandRows]
    have hA : geoW "A" = some ⟨1, 1⟩ := by decide
    simp only [hA, hsplit]
    rfl
  have hne : (expandRows geoW cfgW.truckCapacity
      ([⟨5, "A"⟩] : List RawInputRow).enum).stops ≠ [] := by
    rw [hexp]
    exact List.cons_ne_nil _ _
  exact ⟨⟨rfl, hne⟩,
    matrix_fallback_spec [⟨5, "A"⟩] cfgW geoW (fun _ _ => 0) oW rfl hne⟩

/-! ## The schedule simulator (claims C6, C7) -/

instance : Inhabited DeliveryStop := ⟨⟨.final 0, ⟨0, 0⟩, 0, "", 0⟩⟩

/-- The vehicle position before serving stop `k` (the origin before the
first stop, the previous stop's coordinate afterwards). -/
def posAt (origin : GeoCoord) (stops : List DeliveryStop) : ℕ → GeoCoord
  | 0 => origin
  | k + 1 => (stops.getD k default).coords

/-- The clock (minutes-of-day) before serving stop `k`: the departure
clock of the previous stop, starting from `t0`. -/
def clockAt (m : CostMatrix) (rate : ℚ) (t0 : ℕ) (origin : GeoCoord)
    (stops : List DeliveryStop) : ℕ → ℕ
  | 0 => t0
  | k + 1 =>
    addMinutes
      (addMinutes (clockAt m rate t0 origin stops k)
        (m (posAt origin stops k) (stops.getD k default).coords).time)
      ((stops.getD k default).volume * rate)

/-- Arrival clock at stop `k`: the clock advanced by the travel time of
the leg into stop `k`. -/
def arrivalAt (m : CostMatrix) (rate : ℚ) (t0 : ℕ) (origin : GeoCoord)
    (stops : List DeliveryStop) (k : ℕ) : ℕ :=
  addMinutes (clockAt m rate t0 origin stops k)
    (m (posAt origin stops k) (stops.getD k default).coords).time

/-- Departure clock at stop `k`: arrival advanced by the unloading
duration `volume * rate`. -/
def departAt (m : CostMatrix) (rate : ℚ) (t0 : ℕ) (origin : GeoCoord)
    (stops : List DeliveryStop) (k : ℕ) : ℕ :=
  addMinutes (arrivalAt m rate t0 origin stops k)
    ((stops.getD k default).volume * rate)

/-- Travel distance accumulated along the outbound legs of a stop
sequence (no return leg). -/
def legDist (m : CostMatrix) : GeoCoord → List DeliveryStop → ℚ
  | _, [] => 0
  | pos, s :: rest => (m pos s.coords).dist + legDist m s.coords rest

/-- Total travel distance of a route cycle: all outbound legs plus the
return leg to the origin. -/
def legDistSum (m : CostMatrix) (origin : GeoCoord)
    (stops : List DeliveryStop) : ℚ :=
  legDist m origin stops + (m (posAt origin stops stops.length) origin).dist

theorem posAt_cons (origin : GeoCoord) (s : DeliveryStop)
    (rest : List DeliveryStop) (k : ℕ) :
    posAt origin (s :: rest) (k + 1) = posAt s.coords rest k := by
  cases k with
  | zero => rfl
  | succ k => rfl

theorem clockAt_cons (m : CostMatrix) (rate : ℚ) (t0 : ℕ) (origin : GeoCoord)
    (s : DeliveryStop) (rest : List DeliveryStop) (k : ℕ) :
    clockAt m rate t0 origin (s :: rest) (k + 1)
      = clockAt m rate
          (addMinutes (addMinutes t0 (m origin s.coords).time) (s.volume * rate))
          s.coords rest k := by
  induction k with
  | zero => rfl
  | succ k ih =>
    rw [clockAt, ih, posAt_cons]
    rfl

theorem arrivalAt_cons (m : CostMatrix) (rate : ℚ) (t0 : ℕ) (origin : GeoCoord)
    (s : DeliveryStop) (rest : List DeliveryStop) (k : ℕ) :
    arrivalAt m rate t0 origin (s :: rest) (k + 1)
      = arrivalAt m rate
          (addMinutes (addMinutes t0 (m origin s.coords).time) (s.volume * rate))
          s.coords rest k := by
  rw [arrivalAt, arrivalAt, clockAt_cons, posAt_cons]
  rfl

theorem departAt_cons (m : CostMatrix) (rate : ℚ) (t0 : ℕ) (origin : GeoCoord)
    (s : DeliveryStop) (rest : List DeliveryStop) (k : ℕ) :
    departAt m rate t0 origin (s :: rest) (k + 1)
      = departAt m rate
          (addMinutes (addMinutes t0 (m origin s.coords).time) (s.volume * rate))
          s.coords rest k := by
  rw [departAt, departAt, arrivalAt_cons]
  rfl

/-- Full characterization of the scheduling fold: lengths, per-index
timed stops, final clock, final position and accumulated distance. -/
theorem simulate_spec (m : CostMatrix) (rate : ℚ) (stops : List DeliveryStop)
    (t0 : ℕ) (pos : GeoCoord) (d : ℚ) :
    (simulate m rate stops t0 pos d).timed.length = stops.length
    ∧ (∀ k : Fin stops.length,
        (simulate m rate stops t0 pos d).timed[k.1]?
          = some ⟨stops.get k, arrivalAt m rate t0 pos stops k.1,
              (stops.get k).volume * rate, departAt m rate t0 pos stops k.1⟩)
    ∧ (simulate m rate stops t0 pos d).endTime = clockAt m rate t0 pos stops stops.length
    ∧ (simulate m rate stops t0 pos d).endPos = posAt pos stops stops.length
    ∧ (simulate m rate stops t0 pos d).dist = d + legDist m pos stops := by
  induction stops generalizing t0 pos d with
  | nil =>
    refine ⟨rfl, ?_, rfl, rfl, by simp [simulate, legDist]⟩
    intro k
    exact absurd k.2 (by simp)
  | cons s rest ih =>
    obtain ⟨ihlen, ihget, ihtime, ihpos, ihdist⟩ :=
      ih (addMinutes (addMinutes t0 (m pos s.coords).time) (s.volume * rate))
        s.coords (d + (m pos s.coords).dist)
    refine ⟨?_, ?_, ?_, ?_, ?_⟩
    · show _ + 1 = _ + 1
      rw [ihlen]
    · have hcons : (simulate m rate (s :: rest) t0 pos d).timed
          = ⟨s, addMinutes t0 (m pos s.coords).time, s.volume * rate,
              addMinutes (addMinutes t0 (m pos s.coords).time) (s.volume * rate)⟩
            :: (simulate m rate rest
                (addMinutes (addMinutes t0 (m pos s.coords).time) (s.volume * rate))
                s.coords (d + (m pos s.coords).dist)).timed := rfl
      intro k
      match k with
      | ⟨0, h0⟩ =>
        show (simulate m rate (s :: rest) t0 pos d).timed[(0 : ℕ)]?
          = some ⟨s, arrivalAt m rate t0 pos (s :: rest) 0, s.volume * rate,
              departAt m rate t0 pos (s :: rest) 0⟩
        rw [hcons, List.getElem?_cons_zero]
        rfl
      | ⟨k + 1, hk⟩ =>
        have hk2 : k < rest.length := by simpa using hk
        show (simulate m rate (s :: rest) t0 pos d).timed[(k + 1 : ℕ)]?
          = some ⟨rest.get ⟨k, hk2⟩, arrivalAt m rate t0 pos (s :: rest) (k + 1),
              (rest.get ⟨k, hk2⟩).volume * rate,
              departAt m rate t0 pos (s :: rest) (k + 1)⟩
        rw [hcons, List.getElem?_cons_succ]
        rw [ihget ⟨k, hk2⟩, arrivalAt_cons, departAt_cons]
    · have h1 : (simulate m rate (s :: rest) t0 pos d).endTime
          = (simulate m rate rest
              (addMinutes (addMinutes t0 (m pos s.coords).time) (s.volume * rate))
              s.coords (d + (m pos s.coords).dist)).endTime := rfl
      rw [h1, ihtime, List.length_cons, clockAt_cons]
    · have h2 : (simulate m rate (s :: rest) t0 pos d).endPos
          = (simulate m rate rest
              (addMinutes (addMinutes t0 (m pos s.coords).time) (s.volume * rate))
              s.coords (d + (m pos s.coords).dist)).endPos := rfl
      rw [h2, ihpos, List.length_cons, posAt_cons]
    · have h3 : (simulate m rate (s :: rest) t0 pos d).dist
          = (simulate m rate rest
              (addMinutes (addMinutes t0 (m pos s.coords).time) (s.volume * rate))
              s.coords (d + (m pos s.coords).dist)).dist := rfl
      rw [h3, ihdist, legDist]
      ring

/-- Counterexample to C6 as stated: `totalDistanceKm` is **not** the
exact sum of the leg distances — the code rounds it to 2 decimals
(`Number(dist.toFixed(2))`). With a single return leg of `0.001` km the
stored total is `0`, not `0.001`. -/
theorem schedule_distance_counterexample :
    (scheduleRoute cfgW oW (fun _ _ => ⟨0, 1/1000⟩) ⟨[], 0⟩).totalDistanceKm = 0
    ∧ legDistSum (fun _ _ => ⟨0, 1/1000⟩) oW ([] : List DeliveryStop) = 1/1000
    ∧ (0 : ℚ) ≠ 1/1000 := by
  refine ⟨?_, ?_, by norm_num⟩
  · show round2 ((simulate (fun _ _ => ⟨0, 1/1000⟩) cfgW.unloadingMinPerM3 []
        (addMinutes cfgW.startTime cfgW.loadingTimeMin) oW 0).dist + 1/1000) = 0
    show round2 (0 + 1/1000) = 0
    rw [round2, round_eq]
    norm_num
  · rw [legDistSum]
    show legDist (fun _ _ => ⟨0, 1/1000⟩) oW [] + 1/1000 = 1/1000
    rw [legDist]
    norm_num

/-- **C6 (amended).** The schedule simulator starts the clock at
`startTime + loadingDurationMin`, gives each stop in sequence
`arrivalTime = clock + travel time`, `unloadingDuration = volume * rate`,
`departureTime = arrivalTime + unloadingDuration` (advancing clock and
position), sets `returnToDepotTime` by the travel time of the return
leg, and stores as `totalDistanceKm` the sum of the travel distances of
every leg including the return leg, **rounded to 2 decimal places**. -/
theorem schedule_spec (cfg : SolverConfig) (origin : GeoCoord) (m : CostMatrix)
    (r : Route) :
    (scheduleRoute cfg origin m r).stops.length = r.stops.length
    ∧ (∀ k : Fin r.stops.length,
        (scheduleRoute cfg origin m r).stops[k.1]?
          = some ⟨r.stops.get k,
              arrivalAt m cfg.unloadingMinPerM3
                (addMinutes cfg.startTime cfg.loadingTimeMin) origin r.stops k.1,
              (r.stops.get k).volume * cfg.unloadingMinPerM3,
              departAt m cfg.unloadingMinPerM3
                (addMinutes cfg.startTime cfg.loadingTimeMin) origin r.stops k.1⟩)
    ∧ (scheduleRoute cfg origin m r).returnToDepotTime
        = addMinutes
            (clockAt m cfg.unloadingMinPerM3
              (addMinutes cfg.startTime cfg.loadingTimeMin) origin r.stops
              r.stops.length)
            (m (posAt origin r.stops r.stops.length) origin).time
    ∧ (scheduleRoute cfg origin m r).totalDistanceKm
        = round2 (legDistSum m origin r.stops)
    ∧ (scheduleRoute cfg origin m r).startTime = cfg.startTime := by
  obtain ⟨hlen, hget, htime, hpos, hdist⟩ :=
    simulate_spec m cfg.unloadingMinPerM3 r.stops
      (addMinutes cfg.startTime cfg.loadingTimeMin) origin 0
  refine ⟨hlen, hget, ?_, ?_, rfl⟩
  · show addMinutes
        (simulate m cfg.unloadingMinPerM3 r.stops
          (addMinutes cfg.startTime cfg.loadingTimeMin) origin 0).endTime
        (m (simulate m cfg.unloadingMinPerM3 r.stops
          (addMinutes cfg.startTime cfg.loadingTimeMin) origin 0).endPos origin).time
      = _
    rw [htime, hpos]
  · show round2
        ((simulate m cfg.unloadingMinPerM3 r.stops
          (addMinutes cfg.startTime cfg.loadingTimeMin) origin 0).dist
        + (m (simulate m cfg.unloadingMinPerM3 r.stops
            (addMinutes cfg.startTime cfg.loadingTimeMin) origin 0).endPos
              origin).dist)
      = _
    rw [hdist, hpos, legDistSum, zero_add]

/-! ## Chronology of the schedule (claim C7) -/

/-- The unwrapped (never reduced mod 1440) clock before stop `k`: the
actual timeline of the simulation. -/
def uclockAt (m : CostMatrix) (rate : ℚ) (t0 : ℤ) (origin : GeoCoord)
    (stops : List DeliveryStop) : ℕ → ℤ
  | 0 => t0
  | k + 1 =>
    uclockAt m rate t0 origin stops k
      + round (m (posAt origin stops k) (stops.getD k default).coords).time
      + round ((stops.getD k default).volume * rate)

/-- Unwrapped arrival instant at stop `k`. -/
def uarrivalAt (m : CostMatrix) (rate : ℚ) (t0 : ℤ) (origin : GeoCoord)
    (stops : List DeliveryStop) (k : ℕ) : ℤ :=
  uclockAt m rate t0 origin stops k
    + round (m (posAt origin stops k) (stops.getD k default).coords).time

/-- Unwrapped departure instant at stop `k`. -/
def udepartAt (m : CostMatrix) (rate : ℚ) (t0 : ℤ) (origin : GeoCoord)
    (stops : List DeliveryStop) (k : ℕ) : ℤ :=
  uarrivalAt m rate t0 origin stops k
    + round ((stops.getD k default).volume * rate)

theorem addMinutes_wrap (u : ℤ) (x : ℚ) :
    addMinutes (u % 1440).toNat x = ((u + round x) % 1440).toNat := by
  rw [addMinutes, Int.toNat_of_nonneg (Int.emod_nonneg u (by norm_num)),
    Int.emod_add_emod]

theorem addMinutes_lt (t : ℕ) (x : ℚ) : addMinutes t x < 1440 := by
  rw [addMinutes]
  have h1 := Int.emod_nonneg ((t : ℤ) + round x) (by norm_num : (1440 : ℤ) ≠ 0)
  have h2 := Int.emod_lt_of_pos ((t : ℤ) + round x) (by norm_num : (0 : ℤ) < 1440)
  omega

theorem clockAt_wrap (m : CostMatrix) (rate : ℚ) (t0 : ℕ) (origin : GeoCoord)
    (stops : List DeliveryStop) (ht0 : t0 % 1440 = t0) (k : ℕ) :
    clockAt m rate t0 origin stops k
      = (uclockAt m rate (t0 : ℤ) origin stops k % 1440).toNat := by
  induction k with
  | zero =>
    show t0 = ((t0 : ℤ) % 1440).toNat
    omega
  | succ k ih =>
    show addMinutes (addMinutes (clockAt m rate t0 origin stops k) _) _ = _
    rw [ih, addMinutes_wrap, addMinutes_wrap]
    rfl

theorem arrivalAt_wrap (m : CostMatrix) (rate : ℚ) (t0 : ℕ) (origin : GeoCoord)
    (stops : List DeliveryStop) (ht0 : t0 % 1440 = t0) (k : ℕ) :
    arrivalAt m rate t0 origin stops k
      = (uarrivalAt m rate (t0 : ℤ) origin stops k % 1440).toNat := by
  rw [arrivalAt, clockAt_wrap m rate t0 origin stops ht0, addMinutes_wrap]
  rfl

theorem departAt_wrap (m : CostMatrix) (rate : ℚ) (t0 : ℕ) (origin : GeoCoord)
    (stops : List DeliveryStop) (ht0 : t0 % 1440 = t0) (k : ℕ) :
    departAt m rate t0 origin stops k
      = (udepartAt m rate (t0 : ℤ) origin stops k % 1440).toNat := by
  rw [departAt, arrivalAt_wrap m rate t0 origin stops ht0, addMinutes_wrap]
  rfl

theorem round_nonneg_of_nonneg (x : ℚ) (hx : 0 ≤ x) : 0 ≤ round x := by
  rw [round_eq]
  exact Int.le_floor.mpr (by push_cast; linarith)

theorem getD_volume_nonneg (stops : List DeliveryStop)
    (hvol : ∀ s ∈ stops, 0 ≤ s.volume) (k : ℕ) :
    0 ≤ (stops.getD k default).volume := by
  by_cases h : k < stops.length
  · rw [getD_eq_get stops default k h]
    exact hvol _ (List.get_mem stops k h)
  · rw [List.getD_eq_getElem?_getD, List.getElem?_eq_none (le_of_not_lt h)]
    exact le_refl 0

/-- On the unwrapped timeline, with nonnegative travel times, volumes
and unloading rate, the clock never goes backwards: arrival precedes
departure, which is the clock at the next stop. -/
theorem uclock_steps (m : CostMatrix) (rate : ℚ) (t0 : ℤ) (origin : GeoCoord)
    (stops : List DeliveryStop)
    (htime : ∀ a b, 0 ≤ (m a b).time)
    (hvol : ∀ s ∈ stops, 0 ≤ s.volume) (hrate : 0 ≤ rate) (k : ℕ) :
    uclockAt m rate t0 origin stops k ≤ uarrivalAt m rate t0 origin stops k
    ∧ uarrivalAt m rate t0 origin stops k ≤ udepartAt m rate t0 origin stops k
    ∧ udepartAt m rate t0 origin stops k
        = uclockAt m rate t0 origin stops (k + 1) := by
  refine ⟨?_, ?_, rfl⟩
  · have h := round_nonneg_of_nonneg _
      (htime (posAt origin stops k) (stops.getD k default).coords)
    show uclockAt m rate t0 origin stops k
        ≤ uclockAt m rate t0 origin stops k + _
    omega
  · have h := round_nonneg_of_nonneg _
      (mul_nonneg (getD_volume_nonneg stops hvol k) hrate)
    show uarrivalAt m rate t0 origin stops k
        ≤ uarrivalAt m rate t0 origin stops k + _
    omega

/-- **C7.** Every scheduled stop's stored arrival/departure clocks are
the wrap (mod 1440) of the unwrapped timeline instants, and on that
timeline (given nonnegative travel times, volumes and unloading rate)
arrival ≤ departure at every stop and the departure of stop `k` is
chronologically no later than the arrival of stop `k+1`. -/
theorem schedule_chronology (cfg : SolverConfig) (origin : GeoCoord)
    (m : CostMatrix) (r : Route)
    (htime : ∀ a b, 0 ≤ (m a b).time)
    (hvol : ∀ s ∈ r.stops, 0 ≤ s.volume)
    (hrate : 0 ≤ cfg.unloadingMinPerM3) :
    ∀ k : Fin r.stops.length,
      ((scheduleRoute cfg origin m r).stops[k.1]?.map TimedStop.arrivalTime
          = some ((uarrivalAt m cfg.unloadingMinPerM3
              ((addMinutes cfg.startTime cfg.loadingTimeMin : ℕ) : ℤ)
              origin r.stops k.1 % 1440).toNat)
        ∧ (scheduleRoute cfg origin m r).stops[k.1]?.map TimedStop.departureTime
          = some ((udepartAt m cfg.unloadingMinPerM3
              ((addMinutes cfg.startTime cfg.loadingTimeMin : ℕ) : ℤ)
              origin r.stops k.1 % 1440).toNat))
      ∧ uarrivalAt m cfg.unloadingMinPerM3
            ((addMinutes cfg.startTime cfg.loadingTimeMin : ℕ) : ℤ)
            origin r.stops k.1
          ≤ udepartAt m cfg.unloadingMinPerM3
              ((addMinutes cfg.startTime cfg.loadingTimeMin : ℕ) : ℤ)
              origin r.stops k.1
      ∧ (k.1 + 1 < r.stops.length →
          udepartAt m cfg.unloadingMinPerM3
              ((addMinutes cfg.startTime cfg.loadingTimeMin : ℕ) : ℤ)
              origin r.stops k.1
            ≤ uarrivalAt m cfg.unloadingMinPerM3
                ((addMinutes cfg.startTime cfg.loadingTimeMin : ℕ) : ℤ)
                origin r.stops (k.1 + 1)) := by
  intro k
  have ht0 : (addMinutes cfg.startTime cfg.loadingTimeMin) % 1440
      = addMinutes cfg.startTime cfg.loadingTimeMin :=
    Nat.mod_eq_of_lt (addMinutes_lt _ _)
  obtain ⟨hlen, hget, htime2, hpos2, hdist2⟩ :=
    simulate_spec m cfg.unloadingMinPerM3 r.stops
      (addMinutes cfg.startTime cfg.loadingTimeMin) origin 0
  have hsteps := uclock_steps m cfg.unloadingMinPerM3
    ((addMinutes cfg.startTime cfg.loadingTimeMin : ℕ) : ℤ) origin r.stops
    htime hvol hrate
  refine ⟨⟨?_, ?_⟩, ?_, ?_⟩
  · show (simulate m cfg.unloadingMinPerM3 r.stops
        (addMinutes cfg.startTime cfg.loadingTimeMin) origin 0).timed[k.1]?.map
          TimedStop.arrivalTime = _
    rw [hget k]
    show some (arrivalAt m cfg.unloadingMinPerM3
        (addMinutes cfg.startTime cfg.loadingTimeMin) origin r.stops k.1) = _
    rw [arrivalAt_wrap m cfg.unloadingMinPerM3 _ origin r.stops ht0]
  · show (simulate m cfg.unloadingMinPerM3 r.stops
        (addMinutes cfg.startTime cfg.loadingTimeMin) origin 0).timed[k.1]?.map
          TimedStop.departureTime = _
    rw [hget k]
    show some (departAt m cfg.unloadingMinPerM3
        (addMinutes cfg.startTime cfg.loadingTimeMin) origin r.stops k.1) = _
    rw [departAt_wrap m cfg.unloadingMinPerM3 _ origin r.stops ht0]
  · exact (hsteps k.1).2.1
  · intro hlt
    have h1 := (hsteps k.1).2.2
    have h2 := (hsteps (k.1 + 1)).1
    rw [h1]
    exact h2

/-- Route fixture for witness runs. -/
def rW : Route := ⟨[sW], 1⟩

/-- Witness for `schedule_chronology` at the one-stop route `rW` under
`cfgW` and the constant matrix `mW`, instantiated at the first stop. -/
theorem schedule_chronology_witness :
    ((scheduleRoute cfgW oW mW rW).stops[(0 : ℕ)]?.map TimedStop.arrivalTime
        = some ((uarrivalAt mW cfgW.unloadingMinPerM3
            ((addMinutes cfgW.startTime cfgW.loadingTimeMin : ℕ) : ℤ)
            oW rW.stops 0 % 1440).toNat)
      ∧ (scheduleRoute cfgW oW mW rW).stops[(0 : ℕ)]?.map TimedStop.departureTime
        = some ((udepartAt mW cfgW.unloadingMinPerM3
            ((addMinutes cfgW.startTime cfgW.loadingTimeMin : ℕ) : ℤ)
            oW rW.stops 0 % 1440).toNat))
    ∧ uarrivalAt mW cfgW.unloadingMinPerM3
          ((addMinutes cfgW.startTime cfgW.loadingTimeMin : ℕ) : ℤ)
          oW rW.stops 0
        ≤ udepartAt mW cfgW.unloadingMinPerM3
            ((addMinutes cfgW.startTime cfgW.loadingTimeMin : ℕ) : ℤ)
            oW rW.stops 0
    ∧ (0 + 1 < rW.stops.length →
        udepartAt mW cfgW.unloadingMinPerM3
            ((addMinutes cfgW.startTime cfgW.loadingTimeMin : ℕ) : ℤ)
            oW rW.stops 0
          ≤ uarrivalAt mW cfgW.unloadingMinPerM3
              ((addMinutes cfgW.startTime cfgW.loadingTimeMin : ℕ) : ℤ)
              oW rW.stops (0 + 1)) :=
  schedule_chronology cfgW oW mW rW
    (fun a b => by norm_num [mW])
    (by
      intro s hs
      rw [rW] at hs
      rw [List.mem_singleton] at hs
      subst hs
      norm_num [sW])
    (by norm_num [cfgW])
    ⟨0, by decide⟩

end ConcreteRoute
